import Mathlib

/-!
Shallow embedding of the food-tracker Map Engine core
(`src/core/map-engine.ts`, `src/core/adapters/leaflet-adapter.ts`,
`src/core/types.ts`).

Modelling conventions, stated once:

* JavaScript objects with string keys (`feature.properties`, the engine's
  `Map`s) are modelled as insertion-ordered association lists.  `Map.set` on
  an existing key keeps the entry's position and replaces its value, exactly
  as a JS `Map` does; setting a fresh key appends.
* JS property access `obj.k` is `getProp`; the spread merge
  `{...a, ...b}` is `objMerge`.
* JS string truthiness (`if (feature.id)`) treats the empty string as false;
  `truthyStr` reproduces that.
* `Date.now()` / `Math.random()` in `ensureFeatureId` are modelled by a
  process-wide nonce threaded through the engine state: each fresh draw is
  rendered in decimal after the `poi-` prefix and the nonce is bumped, which
  captures the process-lifetime uniqueness the time/random combination is
  there to provide.
* Calls into the Leaflet adapter (`addMarker`, `removeMarker`,
  `clearMarkers`, `fitBounds`) are recorded in an explicit call trace, and
  the adapter's `markers : Map<string, L.Marker>` registry is modelled by
  its ordered key list (the `L.Marker` handles themselves are opaque visual
  objects).  Popup markup built by `createPopupContent` is a visual-only
  string and is not modelled.  `console.warn` output goes to a warning
  trace.
* `emit(type, feature)` synchronously fans an event out to the listeners
  registered for `type`; the events trace records each `emit` invocation in
  order.
-/

namespace FoodTracker

/-- A JavaScript property value as the engine manipulates it (strings,
numbers, booleans); JS numbers are modelled as rationals. -/
inductive Val where
  | vStr (s : String)
  | vNum (q : Rat)
  | vBool (b : Bool)
deriving DecidableEq, Repr

/-- A JS object with string keys, in insertion order: the `properties` bag of
a feature. -/
abbrev Props := List (String × Val)

/-- The first of two optional values (`x || y` on JS values that are objects
or nonempty strings; also `x ?? y`). -/
def firstSome {α : Type} (x y : Option α) : Option α :=
  match x with
  | some v => some v
  | none => y

/-- `obj.k`: the value of the first (only, for well-formed objects) entry with
key `k`. -/
def getProp (p : Props) (k : String) : Option Val :=
  match p with
  | [] => none
  | (k', v) :: rest => if k' = k then some v else getProp rest k

/-- `obj.k = v`: replace in place when the key exists, append otherwise
(JS object/Map assignment semantics). -/
def setProp (p : Props) (k : String) (v : Val) : Props :=
  match p with
  | [] => [(k, v)]
  | (k', v') :: rest =>
    if k' = k then (k', v) :: rest else (k', v') :: setProp rest k v

/-- The keys of a properties object, in order. -/
def propKeys (p : Props) : List String := p.map (·.1)

/-- `{...a, ...b}`: keys of `a` in order with `b`'s values where `b` has the
key, followed by the entries of `b` whose keys `a` lacks. -/
def objMerge (a b : Props) : Props :=
  (a.map fun kv => match getProp b kv.1 with
    | some v => (kv.1, v)
    | none => kv) ++
  b.filter fun kv => ¬ (kv.1 ∈ propKeys a)

/-- GeoJSON geometry (`types.ts`): a type tag and a coordinate list (the
engine only ever renders `Point` geometries with `[lng, lat]`). -/
structure Geom where
  gtype : String
  coords : List Rat
deriving DecidableEq, Repr

/-- A GeoJSON feature (`types.ts`): optional top-level id, geometry, and an
open properties bag.  Numeric top-level ids are modelled post-`toString`. -/
structure Feature where
  id? : Option String
  geom : Geom
  props : Props
deriving DecidableEq, Repr

/-- JS truthiness of an optional string: `undefined` and `""` are falsy. -/
def truthyStr (s? : Option String) : Option String :=
  match s? with
  | none => none
  | some s => if s = "" then none else some s

/-- `feature.id` as a truthy string (`feature.id?.toString()` in the code). -/
def topId (f : Feature) : Option String := truthyStr f.id?

/-- `feature.properties.id` as a truthy string. -/
def propIdOf (f : Feature) : Option String :=
  match getProp f.props "id" with
  | some (.vStr s) => truthyStr (some s)
  | _ => none

/-- `feature.id?.toString() || feature.properties.id`: the identifier both
`MapEngine.renderFeature` and `LeafletAdapter.addMarker` compute. -/
def renderId (f : Feature) : Option String := firstSome (topId f) (propIdOf f)

end FoodTracker

namespace FoodTracker

/-! ### Lemmas about the JS-object operations -/

theorem getProp_setProp_self (p : Props) (k : String) (v : Val) :
    getProp (setProp p k v) k = some v := by
  induction p with
  | nil => simp [setProp, getProp]
  | cons hd tl ih =>
    obtain ⟨k', v'⟩ := hd
    by_cases h : k' = k <;> simp [setProp, getProp, h, ih]

theorem getProp_setProp_other (p : Props) (k k' : String) (v : Val)
    (h : k' ≠ k) : getProp (setProp p k v) k' = getProp p k' := by
  induction p with
  | nil => simp [setProp, getProp, Ne.symm h]
  | cons hd tl ih =>
    obtain ⟨k₀, v₀⟩ := hd
    by_cases h0 : k₀ = k
    · subst h0
      simp [setProp, getProp, Ne.symm h]
    · by_cases h1 : k₀ = k' <;> simp [setProp, getProp, h, h0, h1, ih]

theorem getProp_append (xs ys : Props) (k : String) :
    getProp (xs ++ ys) k = firstSome (getProp xs k) (getProp ys k) := by
  induction xs with
  | nil => simp [getProp, firstSome]
  | cons hd tl ih =>
    obtain ⟨k₀, v₀⟩ := hd
    by_cases h : k₀ = k <;> simp [getProp, h, ih, firstSome]

theorem getProp_eq_none_iff (p : Props) (k : String) :
    getProp p k = none ↔ k ∉ propKeys p := by
  induction p with
  | nil => simp [getProp, propKeys]
  | cons hd tl ih =>
    obtain ⟨k₀, v₀⟩ := hd
    by_cases h : k₀ = k
    · subst h
      simp [getProp, propKeys]
    · simp [getProp, propKeys, h, Ne.symm h, ih]

/-- Looking a key up in the overridden copy of `a` inside `objMerge`. -/
theorem getProp_mergeMap (a b : Props) (k : String) :
    getProp (a.map fun kv => match getProp b kv.1 with
      | some v => (kv.1, v)
      | none => kv) k =
      (getProp a k).map fun v₀ =>
        match getProp b k with
        | some v => v
        | none => v₀ := by
  induction a with
  | nil => simp [getProp]
  | cons hd tl ih =>
    obtain ⟨k₀, v₀⟩ := hd
    by_cases h : k₀ = k
    · subst h
      cases hb : getProp b k₀ <;> simp [getProp, hb]
    · cases hb : getProp b k₀ <;> simp [getProp, h, hb, ih]

/-- Filtering on a property of the key alone does not change lookups at keys
the filter keeps. -/
theorem getProp_filterKeys_kept (b : Props) (q : String → Bool) (k : String)
    (hk : q k = true) :
    getProp (b.filter fun kv => q kv.1) k = getProp b k := by
  induction b with
  | nil => simp
  | cons hd tl ih =>
    obtain ⟨k₀, v₀⟩ := hd
    by_cases h : k₀ = k
    · subst h
      simp [List.filter, hk, getProp, ih]
    · cases hq : q k₀ <;> simp [List.filter, hq, getProp, h, ih]

/-- Shallow-merge lookup: a key takes `b`'s value when `b` has it and keeps
`a`'s value otherwise (`{...a, ...b}`). -/
theorem getProp_objMerge (a b : Props) (k : String) :
    getProp (objMerge a b) k = firstSome (getProp b k) (getProp a k) := by
  rw [objMerge, getProp_append, getProp_mergeMap]
  by_cases hka : k ∈ propKeys a
  · obtain ⟨v₀, hv₀⟩ : ∃ v₀, getProp a k = some v₀ := by
      rcases h : getProp a k with _ | v₀
      · exact absurd ((getProp_eq_none_iff a k).mp h) (by simpa using hka)
      · exact ⟨v₀, rfl⟩
    cases hb : getProp b k <;> simp [hv₀, hb, firstSome]
  · have ha : getProp a k = none := (getProp_eq_none_iff a k).mpr hka
    have hfilt :
        getProp (b.filter fun kv => ¬ (kv.1 ∈ propKeys a)) k = getProp b k := by
      have : (decide ¬ (k ∈ propKeys a)) = true := by simpa using hka
      exact getProp_filterKeys_kept b (fun s => decide ¬ (s ∈ propKeys a)) k this
    cases hb : getProp b k <;> simp [ha, hb, firstSome] at hfilt ⊢ <;>
      simpa [hb] using hfilt

end FoodTracker

namespace FoodTracker

/-! ### Decimal rendering of the fresh-id nonce -/

/-- Decimal digit characters of a natural number, most significant first
(`natChars 0 = []`; the nonce model starts the count at 0 but renders only
the digits `Date.now()` would contribute). -/
def natChars (n : Nat) : List Char :=
  if h : n = 0 then []
  else natChars (n / 10) ++ [Char.ofNat (48 + n % 10)]
termination_by n
decreasing_by exact Nat.div_lt_self (Nat.pos_of_ne_zero h) (by omega)

/-- Decimal decoding, inverse to `natChars`. -/
def unChars (cs : List Char) : Nat :=
  cs.foldl (fun a c => 10 * a + (c.toNat - 48)) 0

theorem unChars_append_digit (xs : List Char) (c : Char) :
    unChars (xs ++ [c]) = 10 * unChars xs + (c.toNat - 48) := by
  simp [unChars, List.foldl_append]

theorem digit_char_val : ∀ d : Nat, d < 10 → (Char.ofNat (48 + d)).toNat - 48 = d := by
  decide

theorem unChars_natChars (n : Nat) : unChars (natChars n) = n := by
  induction n using Nat.strong_induction_on with
  | _ n ih =>
    by_cases h : n = 0
    · subst h
      simp [natChars, unChars]
    · rw [natChars, dif_neg h, unChars_append_digit,
        ih (n / 10) (Nat.div_lt_self (Nat.pos_of_ne_zero h) (by omega)),
        digit_char_val (n % 10) (Nat.mod_lt n (by omega))]
      omega

theorem natChars_injective : Function.Injective natChars := by
  intro a b h
  have := congrArg unChars h
  rwa [unChars_natChars, unChars_natChars] at this

/-- `` `poi-${Date.now()}-${Math.random().toString(36).substr(2, 9)}` ``
(`ensureFeatureId`, line 234): the time/random draw is modelled by the
process-wide nonce, rendered in decimal after the `poi-` prefix. -/
def freshId (n : Nat) : String :=
  String.mk ('p' :: 'o' :: 'i' :: '-' :: natChars n)

theorem freshId_injective : Function.Injective freshId := by
  intro a b h
  have hd : 'p' :: 'o' :: 'i' :: '-' :: natChars a =
      'p' :: 'o' :: 'i' :: '-' :: natChars b := congrArg String.data h
  simp only [List.cons.injEq, true_and] at hd
  exact natChars_injective hd

/-! ### The Leaflet adapter (`part_003`), marker registry and call trace -/

/-- A call into the adapter, as recorded in the trace. -/
inductive ACall where
  | addMarker (id? : Option String)
  | removeMarker (id : String)
  | clearMarkers
  | fitBounds
deriving DecidableEq, Repr

/-- `this.markers.set(id, marker)`: existing key keeps its position, fresh
key appends.  Only the key matters in the model (the `L.Marker` handle is an
opaque visual object). -/
def keyInsert (l : List String) (k : String) : List String :=
  if k ∈ l then l else l ++ [k]

/-- `LeafletAdapter.addMarker` (part_003 lines 32-54): renders a marker and
registers it under `feature.id?.toString() || feature.properties.id` when
that is truthy (otherwise the marker is drawn but not registered). -/
def adapterAddMarker (markers : List String) (f : Feature) : List String :=
  match renderId f with
  | some id => keyInsert markers id
  | none => markers

/-- `LeafletAdapter.removeMarker` (part_003 lines 59-67): deletes the marker
if present and reports whether one was removed. -/
def adapterRemoveMarker (markers : List String) (id : String) :
    List String × Bool :=
  if id ∈ markers then (markers.filter fun k => k ≠ id, true)
  else (markers, false)

/-! ### The engine state (`MapEngine`) -/

/-- The mutable state of a `MapEngine` together with its adapter: the
adapter's marker registry, the feature store (`Map<string, GeoJSONFeature>`
in insertion order), and the nonce abstracting the `Date.now()` /
`Math.random()` draws. -/
structure Engine where
  markers : List String
  features : List (String × Feature)
  nonce : Nat
deriving DecidableEq, Repr

/-- A freshly constructed engine: empty store, no markers. -/
def initEngine : Engine := { markers := [], features := [], nonce := 0 }

/-- `this.features.set(id, feature)` with JS `Map` ordering. -/
def storeSet (s : List (String × Feature)) (id : String) (f : Feature) :
    List (String × Feature) :=
  if id ∈ s.map (·.1) then s.map fun kv => (kv.1, if kv.1 = id then f else kv.2)
  else s ++ [(id, f)]

/-- `this.features.get(id)`. -/
def storeGet (s : List (String × Feature)) (id : String) : Option Feature :=
  match s with
  | [] => none
  | (k, f) :: rest => if k = id then some f else storeGet rest id

/-- An emitted event (`FeatureEvent` in types.ts; the source field is
`type`). -/
structure FeatureEvent where
  etype : String
  feature : Feature
deriving DecidableEq, Repr

/-- The observable result of one engine operation: the new state, the events
emitted (in order), the adapter calls made (in order), and the
`console.warn` lines. -/
structure Res where
  st : Engine
  events : List FeatureEvent
  calls : List ACall
  warns : List String
deriving DecidableEq, Repr

namespace MapEngine

/-- `MapEngine.ensureFeatureId` (lines 229-237): top-level id if truthy, else
a (string-valued) truthy `properties.id`, else a synthesized id written back
into the properties.  Returns the id, the (possibly written-back) feature,
and the advanced nonce. -/
def ensureFeatureId (nonce : Nat) (f : Feature) : String × Feature × Nat :=
  match topId f with
  | some s => (s, f, nonce)
  | none =>
    match propIdOf f with
    | some s => (s, f, nonce)
    | none =>
      let id := freshId nonce
      (id, { f with props := setProp f.props "id" (.vStr id) }, nonce + 1)

/-- `MapEngine.renderFeature` (lines 172-188): builds popup content
(visual-only, not modelled) and adds a marker through the adapter; returns
the new marker registry and the traced call.  The click handler it installs
is `markerClickEvent`. -/
def renderFeature (markers : List String) (f : Feature) : List String × ACall :=
  (adapterAddMarker markers f, .addMarker (renderId f))

/-- The marker click handler installed by `renderFeature` (lines 185-187):
emits a `click` event (the spec's `clicked`) carrying the rendered
feature. -/
def markerClickEvent (f : Feature) : FeatureEvent := ⟨"click", f⟩

/-- `MapEngine.addFeature` (lines 66-79). -/
def addFeature (s : Engine) (f : Feature) (emitEvent : Bool) : Res :=
  let r := ensureFeatureId s.nonce f
  let rf := renderFeature s.markers r.2.1
  { st := { markers := rf.1, features := storeSet s.features r.1 r.2.1,
            nonce := r.2.2 },
    events := if emitEvent then [⟨"created", r.2.1⟩] else [],
    calls := [rf.2],
    warns := [] }

/-- `MapEngine.updateFeature` (lines 84-100). -/
def updateFeature (s : Engine) (id : String) (properties : Props) : Res :=
  match storeGet s.features id with
  | none =>
    { st := s, events := [], calls := [],
      warns := ["Feature " ++ id ++ " not found"] }
  | some feature =>
    let f' := { feature with props := objMerge feature.props properties }
    let rm := adapterRemoveMarker s.markers id
    let rf := renderFeature rm.1 f'
    { st := { markers := rf.1,
              features := s.features.map fun kv =>
                (kv.1, if kv.1 = id then f' else kv.2),
              nonce := s.nonce },
      events := [⟨"updated", f'⟩],
      calls := [.removeMarker id, rf.2],
      warns := [] }

/-- `MapEngine.removeFeature` (lines 105-120). -/
def removeFeature (s : Engine) (id : String) : Res :=
  match storeGet s.features id with
  | none =>
    { st := s, events := [], calls := [],
      warns := ["Feature " ++ id ++ " not found"] }
  | some feature =>
    let rm := adapterRemoveMarker s.markers id
    { st := { markers := rm.1,
              features := s.features.filter fun kv => kv.1 ≠ id,
              nonce := s.nonce },
      events := [⟨"deleted", feature⟩],
      calls := [.removeMarker id],
      warns := [] }

/-- One pass of the `forEach` body in `showFeatures`: render the feature and
record the adapter call. -/
def renderStep (acc : List String × List ACall) (kv : String × Feature) :
    List String × List ACall :=
  ((renderFeature acc.1 kv.2).1, acc.2 ++ [(renderFeature acc.1 kv.2).2])

/-- `MapEngine.showFeatures` (lines 125-133): clear all markers, then walk
the store in order rendering the features the filter accepts. -/
def showFeatures (s : Engine) (filterFn : Feature → Bool) : Res :=
  let r := (s.features.filter fun kv => filterFn kv.2).foldl renderStep ([], [])
  { st := { s with markers := r.1 },
    events := [], calls := .clearMarkers :: r.2, warns := [] }

/-- `MapEngine.clear` (lines 138-141). -/
def clear (s : Engine) : Res :=
  { st := { markers := [], features := [], nonce := s.nonce },
    events := [], calls := [.clearMarkers], warns := [] }

/-- `MapEngine.load` (lines 52-61): clear, add every feature with event
emission suppressed, then fit bounds once. -/
def load (s : Engine) (data : List Feature) : Res :=
  let c := clear s
  let r := data.foldl
    (fun (acc : Engine × List FeatureEvent × List ACall) f =>
      let a := addFeature acc.1 f false
      (a.st, acc.2.1 ++ a.events, acc.2.2 ++ a.calls))
    (c.st, [], [])
  { st := r.1,
    events := c.events ++ r.2.1,
    calls := c.calls ++ r.2.2 ++ [.fitBounds],
    warns := [] }

/-- `MapEngine.export` (lines 146-151) — `export` is a Lean keyword, hence
the suffix.  `Array.from(this.features.values())`. -/
def exportCollection (s : Engine) : List Feature := s.features.map (·.2)

/-- `MapEngine.getAllFeatures` (lines 166-168). -/
def getAllFeatures (s : Engine) : List Feature := s.features.map (·.2)

/-- The synthetic feature built by `handleMapClick` (lines 222-226). -/
def syntheticClickFeature (lat lng : Rat) : Feature :=
  { id? := none,
    geom := { gtype := "Point", coords := [lng, lat] },
    props := [("lat", .vNum lat), ("lng", .vNum lng)] }

/-- `MapEngine.handleMapClick` (lines 220-227): re-emits an adapter surface
click as one `map:click` event (the spec's `surface-clicked`). -/
def handleMapClick (s : Engine) (lat lng : Rat) : Res :=
  { st := s,
    events := [⟨"map:click", syntheticClickFeature lat lng⟩],
    calls := [], warns := [] }

end MapEngine

/-- One public engine operation, for reasoning about operation sequences. -/
inductive Op where
  | opLoad (data : List Feature)
  | opAdd (f : Feature)
  | opUpdate (id : String) (properties : Props)
  | opRemove (id : String)
  | opShow (filterFn : Feature → Bool)
  | opClear

/-- Dispatch one public operation (`addFeature` with its public default
`emitEvent = true`). -/
def stepOp (s : Engine) : Op → Res
  | .opLoad data => MapEngine.load s data
  | .opAdd f => MapEngine.addFeature s f true
  | .opUpdate id properties => MapEngine.updateFeature s id properties
  | .opRemove id => MapEngine.removeFeature s id
  | .opShow filterFn => MapEngine.showFeatures s filterFn
  | .opClear => MapEngine.clear s

/-- Run a sequence of public operations from a fresh engine. -/
def runOps (ops : List Op) : Engine :=
  ops.foldl (fun s op => (stepOp s op).st) initEngine

end FoodTracker

namespace FoodTracker

/-! ### Store and adapter lemmas -/

theorem storeGet_mem {s : List (String × Feature)} {id : String} {f : Feature}
    (h : storeGet s id = some f) : (id, f) ∈ s := by
  induction s with
  | nil => simp [storeGet] at h
  | cons hd tl ih =>
    obtain ⟨k, g⟩ := hd
    by_cases hk : k = id
    · subst hk
      simp [storeGet] at h
      simp [h]
    · simp [storeGet, hk] at h
      exact List.mem_cons_of_mem _ (ih h)

theorem storeGet_eq_none_iff (s : List (String × Feature)) (id : String) :
    storeGet s id = none ↔ id ∉ s.map (·.1) := by
  induction s with
  | nil => simp [storeGet]
  | cons hd tl ih =>
    obtain ⟨k, g⟩ := hd
    by_cases hk : k = id
    · subst hk
      simp [storeGet]
    · simp [storeGet, hk, Ne.symm hk, ih]

theorem storeGet_filter_eq_none (s : List (String × Feature)) (id : String)
    (q : String × Feature → Bool) (hq : ∀ f, q (id, f) = false) :
    storeGet (s.filter q) id = none := by
  induction s with
  | nil => simp [storeGet]
  | cons hd tl ih =>
    obtain ⟨k, g⟩ := hd
    by_cases hk : k = id
    · subst hk
      simp [List.filter, hq g, ih]
    · cases hkeep : q (k, g) <;>
        simp [List.filter, hkeep, storeGet, hk, ih]

theorem storeGet_map_update (s : List (String × Feature)) (id : String)
    (f f' : Feature) (h : storeGet s id = some f) :
    storeGet (s.map fun kv => (kv.1, if kv.1 = id then f' else kv.2)) id =
      some f' := by
  induction s with
  | nil => simp [storeGet] at h
  | cons hd tl ih =>
    obtain ⟨k, g⟩ := hd
    by_cases hk : k = id
    · subst hk
      simp [storeGet]
    · simp [storeGet, hk] at h ⊢
      exact ih h

theorem keys_map_update (s : List (String × Feature)) (id : String)
    (f' : Feature) :
    ((s.map fun kv => (kv.1, if kv.1 = id then f' else kv.2)).map (·.1)) =
      s.map (·.1) := by
  induction s with
  | nil => simp
  | cons hd tl ih =>
    obtain ⟨k, g⟩ := hd
    by_cases hk : k = id <;> simp [hk, ih]

theorem mem_adapterRemoveMarker (m : List String) (id k : String) :
    k ∈ (adapterRemoveMarker m id).1 ↔ (k ∈ m ∧ k ≠ id) := by
  by_cases h : id ∈ m
  · simp [adapterRemoveMarker, h, List.mem_filter]
  · simp only [adapterRemoveMarker, if_neg h]
    constructor
    · intro hk
      exact ⟨hk, fun he => h (he ▸ hk)⟩
    · exact fun hk => hk.1

theorem self_not_mem_adapterRemoveMarker (m : List String) (id : String) :
    id ∉ (adapterRemoveMarker m id).1 := by
  intro h
  exact ((mem_adapterRemoveMarker m id id).mp h).2 rfl

/-! ### Claim C7 -/

/-- C7: for an identifier not present in the store, both
`updateFeature(identifier, patch)` and `removeFeature(identifier)` are
no-ops: one warning is logged, no event of any kind is emitted, no adapter
call is made, and the engine state (store, size, markers, nonce) is
unchanged.  (Both are total Lean functions, so no exception can be
raised.) -/
theorem unknown_id_update_remove_noop (s : Engine) (id : String)
    (patch : Props) (h : storeGet s.features id = none) :
    MapEngine.updateFeature s id patch =
      { st := s, events := [], calls := [],
        warns := ["Feature " ++ id ++ " not found"] } ∧
    MapEngine.removeFeature s id =
      { st := s, events := [], calls := [],
        warns := ["Feature " ++ id ++ " not found"] } := by
  constructor <;> simp [MapEngine.updateFeature, MapEngine.removeFeature, h]

/-- Witness for C7 at a concrete engine with one stored feature and a
lookup of an absent identifier. -/
theorem unknown_id_update_remove_noop_witness :
    MapEngine.updateFeature
        { markers := ["a"],
          features := [("a", ⟨some "a", ⟨"Point", []⟩, []⟩)], nonce := 0 }
        "ghost" [("rating", .vNum 5)] =
      { st := { markers := ["a"],
                features := [("a", ⟨some "a", ⟨"Point", []⟩, []⟩)],
                nonce := 0 },
        events := [], calls := [],
        warns := ["Feature " ++ "ghost" ++ " not found"] } ∧
    MapEngine.removeFeature
        { markers := ["a"],
          features := [("a", ⟨some "a", ⟨"Point", []⟩, []⟩)], nonce := 0 }
        "ghost" =
      { st := { markers := ["a"],
                features := [("a", ⟨some "a", ⟨"Point", []⟩, []⟩)],
                nonce := 0 },
        events := [], calls := [],
        warns := ["Feature " ++ "ghost" ++ " not found"] } :=
  unknown_id_update_remove_noop _ "ghost" _ (by decide)

/-! ### Claim C6 -/

/-- C6: for an identifier known to the store, `removeFeature` removes the
visual marker, deletes the feature from the store, and emits exactly one
`deleted` event whose payload is the feature exactly as stored immediately
before the removal. -/
theorem removeFeature_emits_pre_removal_state (s : Engine) (id : String)
    (f : Feature) (h : storeGet s.features id = some f) :
    (MapEngine.removeFeature s id).events = [⟨"deleted", f⟩] ∧
    (MapEngine.removeFeature s id).calls = [.removeMarker id] ∧
    storeGet (MapEngine.removeFeature s id).st.features id = none ∧
    id ∉ (MapEngine.removeFeature s id).st.markers ∧
    (MapEngine.removeFeature s id).st.features =
      s.features.filter fun kv => kv.1 ≠ id := by
  refine ⟨?_, ?_, ?_, ?_, ?_⟩ <;>
    simp [MapEngine.removeFeature, h, self_not_mem_adapterRemoveMarker]
  exact storeGet_filter_eq_none _ _ _ fun f => by simp

/-- A concrete stored feature with rating 4.5 and two reviews, and the
engine holding it, for witnesses. -/
def cafeFeature : Feature :=
  ⟨some "cafe", ⟨"Point", [(-370 : Rat)/100, (4041 : Rat)/100]⟩,
    [("name", .vStr "Cafe X"), ("rating", .vNum ((9 : Rat)/2)),
     ("reviews", .vNum 2)]⟩

/-- An engine holding exactly `cafeFeature`, rendered. -/
def cafeEngine : Engine :=
  { markers := ["cafe"], features := [("cafe", cafeFeature)], nonce := 7 }

/-- Witness for C6: removing a feature stored with rating 4.5 and two
reviews emits it still carrying rating 4.5 and two reviews. -/
theorem removeFeature_emits_pre_removal_state_witness :
    (MapEngine.removeFeature cafeEngine "cafe").events =
      [⟨"deleted", cafeFeature⟩] :=
  (removeFeature_emits_pre_removal_state cafeEngine "cafe" cafeFeature rfl).1

end FoodTracker

namespace FoodTracker

/-! ### Claim C8 -/

/-- C8: for a known identifier, `updateFeature` shallow-merges the patch into
the existing properties (patch keys win, absent keys keep their prior
value), leaves the geometry untouched, removes the old marker, re-renders,
and emits one `updated` event carrying the merged feature. -/
theorem updateFeature_shallow_merge (s : Engine) (id : String)
    (f f' : Feature) (patch : Props)
    (h : storeGet s.features id = some f)
    (hf' : f' = { f with props := objMerge f.props patch }) :
    (MapEngine.updateFeature s id patch).events = [⟨"updated", f'⟩] ∧
    (MapEngine.updateFeature s id patch).calls =
      [.removeMarker id, .addMarker (renderId f')] ∧
    storeGet (MapEngine.updateFeature s id patch).st.features id = some f' ∧
    f'.geom = f.geom ∧
    (∀ k v, getProp patch k = some v → getProp f'.props k = some v) ∧
    (∀ k, getProp patch k = none →
      getProp f'.props k = getProp f.props k) := by
  subst hf'
  refine ⟨?_, ?_, ?_, rfl, ?_, ?_⟩
  · simp [MapEngine.updateFeature, h]
  · simp [MapEngine.updateFeature, h, MapEngine.renderFeature]
  · simp only [MapEngine.updateFeature, h]
    exact storeGet_map_update _ _ f _ h
  · intro k v hkv
    simp [getProp_objMerge, hkv, firstSome]
  · intro k hk
    simp [getProp_objMerge, hk, firstSome]

/-- Witness for C8: patching `{rating: 5}` into the stored "Cafe X" feature
keeps its name and coordinates and overwrites the rating. -/
theorem updateFeature_shallow_merge_witness :
    (MapEngine.updateFeature cafeEngine "cafe" [("rating", .vNum 5)]).events =
      [⟨"updated",
        { cafeFeature with
            props := objMerge cafeFeature.props [("rating", .vNum 5)] }⟩] :=
  (updateFeature_shallow_merge cafeEngine "cafe" cafeFeature _
    [("rating", .vNum 5)] rfl rfl).1

/-! ### Claim C10 -/

theorem ensureFeatureId_known (n : Nat) (f : Feature) (id : String)
    (h : renderId f = some id) :
    MapEngine.ensureFeatureId n f = (id, f, n) := by
  unfold MapEngine.ensureFeatureId
  unfold renderId at h
  cases ht : topId f with
  | some s => simp [ht, firstSome] at h; simp [h]
  | none =>
    cases hp : propIdOf f with
    | some s => simp [ht, hp, firstSome] at h; simp [hp, h]
    | none => simp [ht, hp, firstSome] at h

/-- C10: adding a feature whose (top-level or property-carried) identifier is
already a key of the store replaces the stored feature under that
identifier: the key sequence (hence the size) is unchanged, the identifier
still occurs exactly once, lookup yields the new feature, and one `created`
(not `updated`) event is emitted. -/
theorem addFeature_existing_id_replaces (s : Engine) (f : Feature)
    (id : String) (hid : renderId f = some id)
    (hmem : id ∈ s.features.map (·.1))
    (hnd : (s.features.map (·.1)).Nodup) :
    ((MapEngine.addFeature s f true).st.features.map (·.1)) =
      s.features.map (·.1) ∧
    (MapEngine.addFeature s f true).st.features.length =
      s.features.length ∧
    storeGet (MapEngine.addFeature s f true).st.features id = some f ∧
    ((MapEngine.addFeature s f true).st.features.map (·.1)).count id = 1 ∧
    (MapEngine.addFeature s f true).events = [⟨"created", f⟩] := by
  have hens := ensureFeatureId_known s.nonce f id hid
  have hkeys : (storeSet s.features id f).map (·.1) = s.features.map (·.1) := by
    unfold storeSet
    rw [if_pos hmem]
    exact keys_map_update s.features id f
  have hget : storeGet (storeSet s.features id f) id = some f := by
    unfold storeSet
    rw [if_pos hmem]
    obtain ⟨g, hg⟩ : ∃ g, storeGet s.features id = some g := by
      rcases hsg : storeGet s.features id with _ | g
      · exact absurd ((storeGet_eq_none_iff _ _).mp hsg) (by simpa using hmem)
      · exact ⟨g, rfl⟩
    exact storeGet_map_update s.features id g f hg
  refine ⟨?_, ?_, ?_, ?_, ?_⟩
  · simp [MapEngine.addFeature, hens, hkeys]
  · have := congrArg List.length hkeys
    simpa [MapEngine.addFeature, hens] using this
  · simpa [MapEngine.addFeature, hens] using hget
  · simp only [MapEngine.addFeature, hens]
    simpa [hkeys] using List.count_eq_one_of_mem hnd hmem
  · simp [MapEngine.addFeature, hens]

/-- Witness for C10: re-adding a feature with the already-present top-level
identifier `cafe` keeps the key sequence and emits `created`. -/
theorem addFeature_existing_id_replaces_witness :
    ((MapEngine.addFeature cafeEngine
        ⟨some "cafe", ⟨"Point", [0, 0]⟩, [("name", .vStr "New")]⟩
        true).st.features.map (·.1)) = cafeEngine.features.map (·.1) ∧
    (MapEngine.addFeature cafeEngine
        ⟨some "cafe", ⟨"Point", [0, 0]⟩, [("name", .vStr "New")]⟩
        true).events =
      [⟨"created", ⟨some "cafe", ⟨"Point", [0, 0]⟩, [("name", .vStr "New")]⟩⟩] := by
  have h := addFeature_existing_id_replaces cafeEngine
    ⟨some "cafe", ⟨"Point", [0, 0]⟩, [("name", .vStr "New")]⟩ "cafe"
    rfl (by decide) (by decide)
  exact ⟨h.1, h.2.2.2.2⟩

end FoodTracker

namespace FoodTracker

/-! ### The identifiers `load` assigns, and the load fold -/

/-- The id/feature pairs `load` inserts, nonce threaded left to right
(shadow of the `forEach` in `MapEngine.load`). -/
def assignIds (nonce : Nat) : List Feature → List (String × Feature) × Nat
  | [] => ([], nonce)
  | f :: rest =>
    let r := MapEngine.ensureFeatureId nonce f
    let rr := assignIds r.2.2 rest
    ((r.1, r.2.1) :: rr.1, rr.2)

/-- Inserting a list of id/feature pairs into a store, left to right. -/
def insertAll (st : List (String × Feature)) (ps : List (String × Feature)) :
    List (String × Feature) :=
  ps.foldl (fun acc kv => storeSet acc kv.1 kv.2) st

/-- Registering a list of marker keys, left to right. -/
def markAll (m : List String) (ps : List (String × Feature)) : List String :=
  ps.foldl (fun acc kv => keyInsert acc kv.1) m

theorem freshId_ne_empty (n : Nat) : freshId n ≠ "" := by
  intro h
  have hdata := congrArg String.data h
  simp [freshId] at hdata

/-- The feature returned by `ensureFeatureId` renders under exactly the
returned identifier (for the fresh case, because the id was written back
into the properties). -/
theorem renderId_ensureFeatureId (n : Nat) (f : Feature) :
    renderId (MapEngine.ensureFeatureId n f).2.1 =
      some (MapEngine.ensureFeatureId n f).1 := by
  unfold MapEngine.ensureFeatureId
  cases ht : topId f with
  | some s => simp [renderId, ht, firstSome]
  | none =>
    cases hp : propIdOf f with
    | some s => simp [renderId, ht, hp, firstSome]
    | none =>
      have htop :
          topId { f with props := setProp f.props "id" (.vStr (freshId n)) } =
            none := ht
      have hprop :
          propIdOf { f with props := setProp f.props "id" (.vStr (freshId n)) } =
            some (freshId n) := by
        simp [propIdOf, getProp_setProp_self, truthyStr, freshId_ne_empty n]
      simp [ht, hp, renderId, htop, hprop, firstSome]

/-- What the `forEach`-with-`addFeature(·, false)` fold inside `load` does,
in terms of `assignIds`. -/
theorem load_fold_spec (data : List Feature) (e : Engine)
    (evs : List FeatureEvent) (cls : List ACall) :
    (data.foldl (fun acc f =>
        let a := MapEngine.addFeature acc.1 f false
        (a.st, acc.2.1 ++ a.events, acc.2.2 ++ a.calls))
      (e, evs, cls)) =
      ({ markers := markAll e.markers (assignIds e.nonce data).1,
         features := insertAll e.features (assignIds e.nonce data).1,
         nonce := (assignIds e.nonce data).2 },
       evs,
       cls ++ (assignIds e.nonce data).1.map fun kv => .addMarker (some kv.1)) := by
  induction data generalizing e evs cls with
  | nil => simp [assignIds, insertAll, markAll]
  | cons f rest ih =>
    have hrid := renderId_ensureFeatureId e.nonce f
    simp only [List.foldl_cons]
    rw [show (MapEngine.addFeature e f false) =
        { st := { markers := keyInsert e.markers (MapEngine.ensureFeatureId e.nonce f).1,
                  features := storeSet e.features
                    (MapEngine.ensureFeatureId e.nonce f).1
                    (MapEngine.ensureFeatureId e.nonce f).2.1,
                  nonce := (MapEngine.ensureFeatureId e.nonce f).2.2 },
          events := [],
          calls := [.addMarker (some (MapEngine.ensureFeatureId e.nonce f).1)],
          warns := [] } from by
      simp [MapEngine.addFeature, MapEngine.renderFeature, adapterAddMarker, hrid]]
    rw [ih]
    simp [assignIds, insertAll, markAll]

/-! ### Claim C5 -/

/-- The event kinds the engine can emit; the spec names `click` "clicked"
and `map:click` "surface-clicked". -/
def eventKinds : List String :=
  ["created", "updated", "deleted", "click", "map:click"]

/-- C5: every event any public operation emits has one of the five kinds
(created/updated/deleted/clicked/surface-clicked, the last two spelled
`click` and `map:click` in the code); a marker click emits a `click` event;
and a click on empty map surface emits exactly one `map:click`
(surface-clicked) event carrying a synthetic feature whose properties hold
the raw clicked coordinates. -/
theorem event_kind_taxonomy (s : Engine) (op : Op) :
    (∀ e ∈ (stepOp s op).events, e.etype ∈ eventKinds) ∧
    (∀ f, (MapEngine.markerClickEvent f).etype ∈ eventKinds) ∧
    (∀ lat lng : Rat,
      (MapEngine.handleMapClick s lat lng).events =
        [⟨"map:click", MapEngine.syntheticClickFeature lat lng⟩] ∧
      getProp (MapEngine.syntheticClickFeature lat lng).props "lat" =
        some (.vNum lat) ∧
      getProp (MapEngine.syntheticClickFeature lat lng).props "lng" =
        some (.vNum lng)) := by
  refine ⟨?_, ?_, ?_⟩
  · intro e he
    cases op with
    | opLoad data =>
      rw [show (stepOp s (.opLoad data)).events =
          (data.foldl (fun acc f =>
              let a := MapEngine.addFeature acc.1 f false
              (a.st, acc.2.1 ++ a.events, acc.2.2 ++ a.calls))
            ((MapEngine.clear s).st, [], [])).2.1 from by
        simp [stepOp, MapEngine.load, MapEngine.clear]] at he
      rw [load_fold_spec] at he
      simp at he
    | opAdd f =>
      simp [stepOp, MapEngine.addFeature] at he
      simp [he, eventKinds]
    | opUpdate id patch =>
      rcases hget : storeGet s.features id with _ | f <;>
        simp [stepOp, MapEngine.updateFeature, hget] at he
      simp [he, eventKinds]
    | opRemove id =>
      rcases hget : storeGet s.features id with _ | f <;>
        simp [stepOp, MapEngine.removeFeature, hget] at he
      simp [he, eventKinds]
    | opShow p => simp [stepOp, MapEngine.showFeatures] at he
    | opClear => simp [stepOp, MapEngine.clear] at he
  · intro f
    simp [MapEngine.markerClickEvent, eventKinds]
  · intro lat lng
    refine ⟨rfl, ?_, ?_⟩ <;>
      simp [MapEngine.syntheticClickFeature, getProp]

/-- Witness for C5 at a concrete add and a concrete surface click. -/
theorem event_kind_taxonomy_witness :
    (⟨"created", ⟨some "b", ⟨"Point", []⟩, []⟩⟩ : FeatureEvent).etype ∈
      eventKinds ∧
    (MapEngine.handleMapClick initEngine 1 2).events =
      [⟨"map:click", MapEngine.syntheticClickFeature 1 2⟩] :=
  ⟨(event_kind_taxonomy initEngine (.opAdd ⟨some "b", ⟨"Point", []⟩, []⟩)).1
      ⟨"created", ⟨some "b", ⟨"Point", []⟩, []⟩⟩ (by decide),
   ((event_kind_taxonomy initEngine
      (.opAdd ⟨some "b", ⟨"Point", []⟩, []⟩)).2.2 1 2).1⟩

end FoodTracker

namespace FoodTracker

/-! ### Claim C3 -/

theorem insertAll_fresh (ps st : List (String × Feature))
    (hdisj : ∀ kv ∈ ps, kv.1 ∉ st.map (·.1))
    (hnd : (ps.map (·.1)).Nodup) :
    insertAll st ps = st ++ ps := by
  induction ps generalizing st with
  | nil => simp [insertAll]
  | cons hd tl ih =>
    obtain ⟨k, f⟩ := hd
    simp only [List.map_cons, List.nodup_cons] at hnd
    obtain ⟨hnd1, hnd2⟩ := hnd
    have hk : k ∉ st.map (·.1) := hdisj (k, f) (List.mem_cons_self _ _)
    have hstep : storeSet st k f = st ++ [(k, f)] := by
      simp [storeSet, hk]
    simp only [insertAll, List.foldl_cons] at *
    rw [hstep, ih]
    · simp
    · intro kv hkv
      have h1 : kv.1 ∉ st.map (·.1) := hdisj kv (List.mem_cons_of_mem _ hkv)
      have h2 : kv.1 ≠ k := by
        intro he
        exact hnd1 (he ▸ List.mem_map_of_mem (·.1) hkv)
      simp [h1, h2]
    · exact hnd2

theorem markAll_fresh (ps : List (String × Feature)) (m : List String)
    (hdisj : ∀ kv ∈ ps, kv.1 ∉ m)
    (hnd : (ps.map (·.1)).Nodup) :
    markAll m ps = m ++ ps.map (·.1) := by
  induction ps generalizing m with
  | nil => simp [markAll]
  | cons hd tl ih =>
    obtain ⟨k, f⟩ := hd
    simp only [List.map_cons, List.nodup_cons] at hnd
    obtain ⟨hnd1, hnd2⟩ := hnd
    have hk : k ∉ m := hdisj (k, f) (List.mem_cons_self _ _)
    have hstep : keyInsert m k = m ++ [k] := by
      simp [keyInsert, hk]
    simp only [markAll, List.foldl_cons] at *
    rw [hstep, ih]
    · simp
    · intro kv hkv
      have h1 : kv.1 ∉ m := hdisj kv (List.mem_cons_of_mem _ hkv)
      have h2 : kv.1 ≠ k := by
        intro he
        exact hnd1 (he ▸ List.mem_map_of_mem (·.1) hkv)
      simp [h1, h2]
    · exact hnd2

/-- C3: `load(collection)` is a bulk reset.  For any prior engine state it
replaces the store with exactly the incoming features (identifiers assigned
where absent), renders each, emits no event of any kind, makes
`fitToMarkers` its single and final adapter fit call after one initial
marker clear, and a subsequent `export()` returns exactly the loaded
features.  (The hypothesis asks the assigned identifiers to be pairwise
distinct, which the identifier policy guarantees for distinct incoming
identifiers.) -/
theorem load_is_bulk_reset (s : Engine) (data : List Feature)
    (hnd : ((assignIds s.nonce data).1.map (·.1)).Nodup) :
    (MapEngine.load s data).events = [] ∧
    (MapEngine.load s data).calls =
      .clearMarkers ::
        (((assignIds s.nonce data).1.map fun kv => .addMarker (some kv.1)) ++
          [.fitBounds]) ∧
    (MapEngine.load s data).calls.count .fitBounds = 1 ∧
    (MapEngine.load s data).calls.getLast? = some .fitBounds ∧
    (MapEngine.load s data).st.features = (assignIds s.nonce data).1 ∧
    (MapEngine.load s data).st.markers =
      (assignIds s.nonce data).1.map (·.1) ∧
    MapEngine.exportCollection (MapEngine.load s data).st =
      (assignIds s.nonce data).1.map (·.2) := by
  have hclear : (MapEngine.clear s).st =
      { markers := [], features := [], nonce := s.nonce } := rfl
  have hfold := load_fold_spec data
    { markers := [], features := [], nonce := s.nonce }
    ([] : List FeatureEvent) ([] : List ACall)
  have hfeat : insertAll ([] : List (String × Feature))
      (assignIds s.nonce data).1 = (assignIds s.nonce data).1 := by
    have := insertAll_fresh (assignIds s.nonce data).1 [] (by simp) hnd
    simpa using this
  have hmark : markAll ([] : List String) (assignIds s.nonce data).1 =
      (assignIds s.nonce data).1.map (·.1) := by
    have := markAll_fresh (assignIds s.nonce data).1 [] (by simp) hnd
    simpa using this
  have hload : MapEngine.load s data =
      { st := { markers := (assignIds s.nonce data).1.map (·.1),
                features := (assignIds s.nonce data).1,
                nonce := (assignIds s.nonce data).2 },
        events := [],
        calls := .clearMarkers ::
          (((assignIds s.nonce data).1.map fun kv => .addMarker (some kv.1)) ++
            [.fitBounds]),
        warns := [] } := by
    simp only [MapEngine.load, MapEngine.clear, hfold, hfeat, hmark]
    simp
  refine ⟨by simp [hload], by simp [hload], ?_, ?_, by simp [hload],
    by simp [hload], by simp [hload, MapEngine.exportCollection]⟩
  · rw [hload]
    simp only [List.count_cons, List.count_append]
    have hz : ((assignIds s.nonce data).1.map
        fun kv => ACall.addMarker (some kv.1)).count .fitBounds = 0 := by
      rw [List.count_eq_zero]
      intro hmem
      simp at hmem
    simp [hz, List.count_singleton]
  · rw [hload]
    rw [show (ACall.clearMarkers ::
        (((assignIds s.nonce data).1.map fun kv => ACall.addMarker (some kv.1)) ++
          [ACall.fitBounds])) =
      ((ACall.clearMarkers ::
        ((assignIds s.nonce data).1.map fun kv => ACall.addMarker (some kv.1))) ++
          [ACall.fitBounds]) from by simp]
    exact List.getLast?_concat _

/-- Witness for C3: loading two features (one with a top-level id, one with
none, which gets a synthesized id) from a dirty engine. -/
theorem load_is_bulk_reset_witness :
    (MapEngine.load cafeEngine
      [⟨some "a", ⟨"Point", []⟩, []⟩, ⟨none, ⟨"Point", []⟩, []⟩]).events = [] ∧
    (MapEngine.load cafeEngine
      [⟨some "a", ⟨"Point", []⟩, []⟩, ⟨none, ⟨"Point", []⟩, []⟩]).st.features =
      (assignIds cafeEngine.nonce
        [⟨some "a", ⟨"Point", []⟩, []⟩, ⟨none, ⟨"Point", []⟩, []⟩]).1 := by
  have h := load_is_bulk_reset cafeEngine
    [⟨some "a", ⟨"Point", []⟩, []⟩, ⟨none, ⟨"Point", []⟩, []⟩] (by decide)
  exact ⟨h.1, h.2.2.2.2.1⟩

end FoodTracker

namespace FoodTracker

/-! ### Claim C4 -/

theorem assignIds_all_blank (data : List Feature) (n : Nat)
    (hall : ∀ g ∈ data, topId g = none ∧ propIdOf g = none) :
    (assignIds n data).1.map (·.1) =
      (List.range data.length).map (fun i => freshId (n + i)) ∧
    ((assignIds n data).1.map (·.1)).Nodup := by
  induction data generalizing n with
  | nil => simp [assignIds]
  | cons g rest ih =>
    obtain ⟨ht, hp⟩ := hall g (List.mem_cons_self _ _)
    have hens : MapEngine.ensureFeatureId n g =
        (freshId n,
         { g with props := setProp g.props "id" (.vStr (freshId n)) },
         n + 1) := by
      simp [MapEngine.ensureFeatureId, ht, hp]
    have ihr := ih (n + 1) fun g' hg' => hall g' (List.mem_cons_of_mem _ hg')
    have hkeys : (assignIds n (g :: rest)).1.map (·.1) =
        freshId n :: (assignIds (n + 1) rest).1.map (·.1) := by
      simp [assignIds, hens]
    constructor
    · rw [hkeys, ihr.1, List.length_cons, List.range_succ_eq_map,
        List.map_cons, List.map_map]
      refine congrArg₂ _ (by simp) (List.map_congr_left fun i hi => ?_)
      simp [Function.comp]
      ring_nf
    · rw [hkeys, List.nodup_cons, ihr.1]
      refine ⟨?_, ihr.1 ▸ ihr.2⟩
      intro hmem
      obtain ⟨i, _, hi⟩ := List.mem_map.mp hmem
      have := freshId_injective hi.symm
      omega

/-- C4: identifier assignment uses the top-level identifier when truthy, else
a truthy `properties.id`, else synthesizes `freshId` of the current nonce,
bumps the nonce, and writes the new id back into the properties (so later
lookups by identifier succeed); `updateFeature` never changes any stored
identifier; and features added without identifiers receive pairwise-distinct
synthesized identifiers (in particular, `k` such adds yield `k` distinct
identifiers). -/
theorem identifier_assignment_policy (n : Nat) (f : Feature) (s : Engine)
    (id : String) (patch : Props) :
    (∀ i, topId f = some i → MapEngine.ensureFeatureId n f = (i, f, n)) ∧
    (topId f = none → ∀ i, propIdOf f = some i →
      MapEngine.ensureFeatureId n f = (i, f, n)) ∧
    (topId f = none → propIdOf f = none →
      MapEngine.ensureFeatureId n f =
        (freshId n,
         { f with props := setProp f.props "id" (.vStr (freshId n)) },
         n + 1) ∧
      propIdOf (MapEngine.ensureFeatureId n f).2.1 = some (freshId n)) ∧
    ((MapEngine.updateFeature s id patch).st.features.map (·.1) =
      s.features.map (·.1)) ∧
    (topId f = none → propIdOf f = none →
      (MapEngine.addFeature s f true).st.nonce = s.nonce + 1 ∧
      (MapEngine.ensureFeatureId s.nonce f).1 = freshId s.nonce ∧
      (MapEngine.ensureFeatureId ((MapEngine.addFeature s f true).st.nonce)
          f).1 ≠ (MapEngine.ensureFeatureId s.nonce f).1) ∧
    (∀ data : List Feature,
      (∀ g ∈ data, topId g = none ∧ propIdOf g = none) →
      ((assignIds n data).1.map (·.1)).Nodup ∧
      (assignIds n data).1.length = data.length) := by
  refine ⟨?_, ?_, ?_, ?_, ?_, ?_⟩
  · intro i hi
    simp [MapEngine.ensureFeatureId, hi]
  · intro ht i hi
    simp [MapEngine.ensureFeatureId, ht, hi]
  · intro ht hp
    have hens : MapEngine.ensureFeatureId n f =
        (freshId n,
         { f with props := setProp f.props "id" (.vStr (freshId n)) },
         n + 1) := by
      simp [MapEngine.ensureFeatureId, ht, hp]
    refine ⟨hens, ?_⟩
    rw [hens]
    simp [propIdOf, getProp_setProp_self, truthyStr, freshId_ne_empty n]
  · rcases hget : storeGet s.features id with _ | g
    · simp [MapEngine.updateFeature, hget]
    · simp only [MapEngine.updateFeature, hget]
      exact keys_map_update _ _ _
  · intro ht hp
    have hens : MapEngine.ensureFeatureId s.nonce f =
        (freshId s.nonce,
         { f with props := setProp f.props "id" (.vStr (freshId s.nonce)) },
         s.nonce + 1) := by
      simp [MapEngine.ensureFeatureId, ht, hp]
    have hens' : MapEngine.ensureFeatureId (s.nonce + 1) f =
        (freshId (s.nonce + 1),
         { f with props := setProp f.props "id" (.vStr (freshId (s.nonce + 1))) },
         s.nonce + 2) := by
      simp [MapEngine.ensureFeatureId, ht, hp]
    have hnonce : (MapEngine.addFeature s f true).st.nonce = s.nonce + 1 := by
      simp [MapEngine.addFeature, hens]
    refine ⟨hnonce, by simp [hens], ?_⟩
    rw [hnonce, hens, hens']
    intro h
    have := freshId_injective h
    omega
  · intro data hall
    have h := assignIds_all_blank data n hall
    refine ⟨h.2, ?_⟩
    have := congrArg List.length h.1
    simpa using this

/-- Witness for C4 at concrete features: a top-level id is used as is, and
two id-less features get the distinct synthesized ids `poi-` 0 and 1. -/
theorem identifier_assignment_policy_witness :
    MapEngine.ensureFeatureId 0 ⟨some "x", ⟨"Point", []⟩, []⟩ =
      ("x", ⟨some "x", ⟨"Point", []⟩, []⟩, 0) ∧
    ((assignIds 0 [⟨none, ⟨"Point", []⟩, []⟩,
        ⟨none, ⟨"Point", []⟩, []⟩]).1.map (·.1)).Nodup := by
  have h := identifier_assignment_policy 0 ⟨some "x", ⟨"Point", []⟩, []⟩
    initEngine "x" []
  refine ⟨h.1 "x" rfl, ?_⟩
  have h2 := identifier_assignment_policy 0 ⟨none, ⟨"Point", []⟩, []⟩
    initEngine "x" []
  exact (h2.2.2.2.2.2 [⟨none, ⟨"Point", []⟩, []⟩, ⟨none, ⟨"Point", []⟩, []⟩]
    (by decide)).1

end FoodTracker

namespace FoodTracker

/-! ### Claim C9 -/

/-- What the render loop in `showFeatures` does when every feature renders
under its store key, the keys are distinct and none is registered yet. -/
theorem show_fold_spec (l : List (String × Feature)) (m : List String)
    (cs : List ACall)
    (hok : ∀ kv ∈ l, renderId kv.2 = some kv.1)
    (hfresh : ∀ kv ∈ l, kv.1 ∉ m)
    (hnd : (l.map (·.1)).Nodup) :
    l.foldl MapEngine.renderStep (m, cs) =
      (m ++ l.map (·.1), cs ++ l.map fun kv => .addMarker (some kv.1)) := by
  induction l generalizing m cs with
  | nil => simp
  | cons hd tl ih =>
    obtain ⟨k, f⟩ := hd
    simp only [List.map_cons, List.nodup_cons] at hnd
    obtain ⟨hnd1, hnd2⟩ := hnd
    have hkf : renderId f = some k := hok (k, f) (List.mem_cons_self _ _)
    have hkm : k ∉ m := hfresh (k, f) (List.mem_cons_self _ _)
    have hstep : MapEngine.renderStep (m, cs) (k, f) =
        (m ++ [k], cs ++ [ACall.addMarker (some k)]) := by
      simp [MapEngine.renderStep, MapEngine.renderFeature, adapterAddMarker,
        hkf, keyInsert, hkm]
    rw [List.foldl_cons, hstep,
      ih (m ++ [k]) (cs ++ [ACall.addMarker (some k)])
        (fun kv hkv => hok kv (List.mem_cons_of_mem _ hkv))
        (fun kv hkv => by
          have h1 : kv.1 ∉ m := hfresh kv (List.mem_cons_of_mem _ hkv)
          have h2 : kv.1 ≠ k := fun he =>
            hnd1 (he ▸ List.mem_map_of_mem (·.1) hkv)
          simp [h1, h2])
        hnd2]
    simp

/-- C9: `showFeatures(p)` leaves the store (and nonce) untouched, emits
nothing, and re-renders exactly the stored features satisfying `p`, in store
iteration order; a following `showFeatures` with an always-true predicate
restores the full marker set in the original store order.  (Hypotheses: the
engine renders each stored feature under its store key and keys are
distinct, which hold in every reachable state.) -/
theorem showFeatures_renders_filtered_subset (s : Engine) (p : Feature → Bool)
    (hok : ∀ kv ∈ s.features, renderId kv.2 = some kv.1)
    (hnd : (s.features.map (·.1)).Nodup) :
    (MapEngine.showFeatures s p).st.features = s.features ∧
    (MapEngine.showFeatures s p).st.nonce = s.nonce ∧
    (MapEngine.showFeatures s p).events = [] ∧
    (MapEngine.showFeatures s p).calls =
      .clearMarkers ::
        ((s.features.filter fun kv => p kv.2).map fun kv =>
          .addMarker (some kv.1)) ∧
    (MapEngine.showFeatures s p).st.markers =
      (s.features.filter fun kv => p kv.2).map (·.1) ∧
    (MapEngine.showFeatures (MapEngine.showFeatures s p).st
        fun _ => true).st.markers = s.features.map (·.1) := by
  have hsub : ∀ q : Feature → Bool,
      ((s.features.filter fun kv => q kv.2).map (·.1)).Nodup := by
    intro q
    exact hnd.sublist (List.Sublist.map _ (List.filter_sublist s.features))
  have hfold : ∀ q : Feature → Bool,
      ((s.features.filter fun kv => q kv.2).foldl
        MapEngine.renderStep ([], [])) =
      ((s.features.filter fun kv => q kv.2).map (·.1),
       (s.features.filter fun kv => q kv.2).map fun kv =>
         .addMarker (some kv.1)) := by
    intro q
    have := show_fold_spec (s.features.filter fun kv => q kv.2) [] []
      (fun kv hkv => hok kv (List.mem_of_mem_filter hkv))
      (fun kv _ => by simp)
      (hsub q)
    simpa using this
  have hshow : ∀ q : Feature → Bool, MapEngine.showFeatures s q =
      { st := { s with markers := (s.features.filter fun kv => q kv.2).map (·.1) },
        events := [],
        calls := .clearMarkers ::
          ((s.features.filter fun kv => q kv.2).map fun kv =>
            .addMarker (some kv.1)),
        warns := [] } := by
    intro q
    simp [MapEngine.showFeatures, hfold q]
  refine ⟨by simp [hshow p], by simp [hshow p], by simp [hshow p],
    by simp [hshow p], by simp [hshow p], ?_⟩
  have hst : (MapEngine.showFeatures s p).st =
      { s with markers := (s.features.filter fun kv => p kv.2).map (·.1) } := by
    simp [hshow p]
  rw [hst]
  have hok' : ∀ kv ∈
      ({ s with markers := (s.features.filter fun kv => p kv.2).map (·.1) } :
        Engine).features, renderId kv.2 = some kv.1 := hok
  have hfold' := show_fold_spec
    (({ s with markers := (s.features.filter fun kv => p kv.2).map (·.1) } :
        Engine).features.filter fun _ => true) [] []
    (fun kv hkv => hok kv (List.mem_of_mem_filter hkv))
    (fun kv _ => by simp)
    (by simpa using hnd)
  simp only [MapEngine.showFeatures, hfold']
  simp

/-- Witness for C9: filtering `cafeEngine` with an always-false predicate
clears the markers while the store stays intact, and an always-true
predicate restores the single marker. -/
theorem showFeatures_renders_filtered_subset_witness :
    (MapEngine.showFeatures cafeEngine fun _ => false).st.features =
      cafeEngine.features ∧
    (MapEngine.showFeatures cafeEngine fun _ => false).st.markers = [] ∧
    (MapEngine.showFeatures
        (MapEngine.showFeatures cafeEngine fun _ => false).st
        fun _ => true).st.markers = cafeEngine.features.map (·.1) := by
  have h := showFeatures_renders_filtered_subset cafeEngine (fun _ => false)
    (by decide) (by decide)
  refine ⟨h.1, ?_, h.2.2.2.2.2⟩
  have hm := h.2.2.2.2.1
  simpa using hm

end FoodTracker

namespace FoodTracker

/-! ### Claim C1: the literal claim, and what actually holds -/

/-- The filter the claim's "shown" notion refers to: the predicate of the
most recent `showFeatures`, forgotten when a later `load`/`clear` rebuilds
or empties the visual set wholesale. -/
def lastFilter (ops : List Op) : Option (Feature → Bool) :=
  ops.foldl (fun acc op =>
    match op with
    | .opShow p => some p
    | .opLoad _ => none
    | .opClear => none
    | _ => acc) none

/-- Claim C1's "shown" identifiers, as the claim words it: after
`showFeatures(p)`, exactly the stored features with `p(f)` true; otherwise
all stored features. -/
def specShownIds (ops : List Op) : List String :=
  match lastFilter ops with
  | some p => ((runOps ops).features.filter fun kv => p kv.2).map (·.1)
  | none => (runOps ops).features.map (·.1)

/-- Claim C1, literally: after any sequence of public operations the store
has exactly one entry per identifier and the adapter holds a marker for an
identifier iff that feature is currently shown. -/
def specMarkerInvariant (ops : List Op) : Prop :=
  (((runOps ops).features.map (·.1)).Nodup) ∧
  ∀ id, id ∈ (runOps ops).markers ↔ id ∈ specShownIds ops

/-- C1 fails as stated: `addFeature` renders its feature even while a
narrowing `showFeatures` filter is in effect, so after
`add a; showFeatures(false); add b` the adapter holds a marker for `b`
although no feature is "shown". -/
theorem showFilter_then_add_breaks_marker_invariant :
    ¬ specMarkerInvariant
      [.opAdd ⟨some "a", ⟨"Point", []⟩, []⟩,
       .opShow (fun _ => false),
       .opAdd ⟨some "b", ⟨"Point", []⟩, []⟩] := by
  intro h
  have hb := (h.2 "b").mp (by decide)
  revert hb
  decide

end FoodTracker

namespace FoodTracker

/-! ### Marker/store correspondence helpers -/

theorem mem_keyInsert (m : List String) (k x : String) :
    x ∈ keyInsert m k ↔ x ∈ m ∨ x = k := by
  by_cases h : k ∈ m
  · simp only [keyInsert, if_pos h]
    constructor
    · exact Or.inl
    · rintro (hx | rfl)
      · exact hx
      · exact h
  · simp [keyInsert, if_neg h]

theorem keyInsert_nodup (m : List String) (k : String) (hm : m.Nodup) :
    (keyInsert m k).Nodup := by
  by_cases h : k ∈ m
  · simpa [keyInsert, if_pos h] using hm
  · rw [keyInsert, if_neg h, List.nodup_append]
    refine ⟨hm, List.nodup_singleton _, ?_⟩
    intro a ha hb
    rw [List.mem_singleton] at hb
    exact h (hb ▸ ha)

theorem mem_keys_storeSet (st : List (String × Feature)) (k : String)
    (v : Feature) (x : String) :
    x ∈ (storeSet st k v).map (·.1) ↔ x ∈ st.map (·.1) ∨ x = k := by
  by_cases h : k ∈ st.map (·.1)
  · rw [storeSet, if_pos h, keys_map_update]
    constructor
    · exact Or.inl
    · rintro (hx | rfl)
      · exact hx
      · exact h
  · rw [storeSet, if_neg h]
    simp

theorem keys_storeSet_nodup (st : List (String × Feature)) (k : String)
    (v : Feature) (hnd : (st.map (·.1)).Nodup) :
    ((storeSet st k v).map (·.1)).Nodup := by
  by_cases h : k ∈ st.map (·.1)
  · rw [storeSet, if_pos h, keys_map_update]
    exact hnd
  · rw [storeSet, if_neg h, List.map_append, List.nodup_append]
    refine ⟨hnd, by simp, ?_⟩
    intro a ha hb
    simp at hb
    exact h (hb ▸ ha)

theorem storeOk_map_update (st : List (String × Feature)) (k : String)
    (v : Feature) (hok : ∀ kv ∈ st, renderId kv.2 = some kv.1)
    (hv : renderId v = some k) :
    ∀ kv ∈ st.map (fun kv => (kv.1, if kv.1 = k then v else kv.2)),
      renderId kv.2 = some kv.1 := by
  intro kv hkv
  obtain ⟨kv0, hkv0, rfl⟩ := List.mem_map.mp hkv
  by_cases he : kv0.1 = k
  · simp only [if_pos he]
    rw [he]
    exact hv
  · simp only [if_neg he]
    exact hok kv0 hkv0

theorem storeOk_storeSet (st : List (String × Feature)) (k : String)
    (v : Feature) (hok : ∀ kv ∈ st, renderId kv.2 = some kv.1)
    (hv : renderId v = some k) :
    ∀ kv ∈ storeSet st k v, renderId kv.2 = some kv.1 := by
  intro kv hkv
  rw [storeSet] at hkv
  by_cases h : k ∈ st.map (·.1)
  · rw [if_pos h] at hkv
    exact storeOk_map_update st k v hok hv kv hkv
  · rw [if_neg h] at hkv
    rcases List.mem_append.mp hkv with hkv | hkv
    · exact hok kv hkv
    · rw [List.mem_singleton] at hkv
      subst hkv
      exact hv

theorem mem_keys_filter_ne (st : List (String × Feature)) (id x : String) :
    x ∈ ((st.filter fun kv => kv.1 ≠ id).map (·.1)) ↔
      x ∈ st.map (·.1) ∧ x ≠ id := by
  constructor
  · intro hx
    obtain ⟨kv, hkv, rfl⟩ := List.mem_map.mp hx
    obtain ⟨hmem, hne⟩ := List.mem_filter.mp hkv
    simp at hne
    exact ⟨List.mem_map_of_mem _ hmem, hne⟩
  · rintro ⟨hx, hne⟩
    obtain ⟨kv, hkv, rfl⟩ := List.mem_map.mp hx
    exact List.mem_map_of_mem _ (List.mem_filter.mpr ⟨hkv, by simpa using hne⟩)

theorem adapterRemoveMarker_nodup (m : List String) (id : String)
    (h : m.Nodup) : (adapterRemoveMarker m id).1.Nodup := by
  by_cases hm : id ∈ m
  · rw [adapterRemoveMarker, if_pos hm]
    exact h.filter _
  · rwa [adapterRemoveMarker, if_neg hm]

theorem renderId_objMerge_no_id (f : Feature) (patch : Props)
    (h : "id" ∉ propKeys patch) :
    renderId { f with props := objMerge f.props patch } = renderId f := by
  have hpatch : getProp patch "id" = none := (getProp_eq_none_iff _ _).mpr h
  have hsame : getProp (objMerge f.props patch) "id" = getProp f.props "id" := by
    rw [getProp_objMerge, hpatch]
    rfl
  unfold renderId topId propIdOf
  rw [hsame]

theorem assignIds_renderOk (data : List Feature) (n : Nat) :
    ∀ kv ∈ (assignIds n data).1, renderId kv.2 = some kv.1 := by
  induction data generalizing n with
  | nil => simp [assignIds]
  | cons f rest ih =>
    intro kv hkv
    simp only [assignIds, List.mem_cons] at hkv
    rcases hkv with hkv | hkv
    · subst hkv
      exact renderId_ensureFeatureId n f
    · exact ih _ kv hkv

/-- The two `load` folds preserve the marker/store correspondence jointly. -/
theorem insertAll_markAll_inv (ps : List (String × Feature))
    (st : List (String × Feature)) (m : List String)
    (hok : ∀ kv ∈ ps, renderId kv.2 = some kv.1)
    (hSt : ∀ kv ∈ st, renderId kv.2 = some kv.1)
    (hnd : (st.map (·.1)).Nodup)
    (hmnd : m.Nodup)
    (hiff : ∀ x, x ∈ m ↔ x ∈ st.map (·.1)) :
    (∀ kv ∈ insertAll st ps, renderId kv.2 = some kv.1) ∧
    ((insertAll st ps).map (·.1)).Nodup ∧
    (markAll m ps).Nodup ∧
    ∀ x, x ∈ markAll m ps ↔ x ∈ (insertAll st ps).map (·.1) := by
  induction ps generalizing st m with
  | nil => exact ⟨hSt, hnd, hmnd, hiff⟩
  | cons hd tl ih =>
    obtain ⟨k, v⟩ := hd
    have hv : renderId v = some k := hok (k, v) (List.mem_cons_self _ _)
    have hstep := ih (storeSet st k v) (keyInsert m k)
      (fun kv hkv => hok kv (List.mem_cons_of_mem _ hkv))
      (storeOk_storeSet st k v hSt hv)
      (keys_storeSet_nodup st k v hnd)
      (keyInsert_nodup m k hmnd)
      (fun x => by
        rw [mem_keyInsert, mem_keys_storeSet]
        rcases Classical.em (x = k) with hx | hx
        · simp [hx]
        · simp [hx, hiff x])
    simpa [insertAll, markAll] using hstep

/-! ### The amended C1 invariant -/

/-- The restriction the counterexample forces: no `showFeatures` in the
history (a trailing filter is treated separately) and no update patch that
rebinds the `id` property (such a patch re-registers the marker under the
new id while the store key stays). -/
def goodOp : Op → Prop
  | .opUpdate _ patch => "id" ∉ propKeys patch
  | .opShow _ => False
  | _ => True

/-- The inductive state invariant: every stored feature renders under its
store key, keys are distinct, and the marker registry is a duplicate-free
list holding exactly the store's keys. -/
def EngineInv (s : Engine) : Prop :=
  (∀ kv ∈ s.features, renderId kv.2 = some kv.1) ∧
  (s.features.map (·.1)).Nodup ∧
  s.markers.Nodup ∧
  ∀ x, x ∈ s.markers ↔ x ∈ s.features.map (·.1)

theorem stepOp_preserves_inv (s : Engine) (op : Op) (hinv : EngineInv s)
    (hgood : goodOp op) : EngineInv (stepOp s op).st := by
  obtain ⟨hok, hnd, hmnd, hiff⟩ := hinv
  cases op with
  | opLoad data =>
    have hfold := load_fold_spec data
      { markers := [], features := [], nonce := s.nonce }
      ([] : List FeatureEvent) ([] : List ACall)
    have hst : (stepOp s (.opLoad data)).st =
        { markers := markAll [] (assignIds s.nonce data).1,
          features := insertAll [] (assignIds s.nonce data).1,
          nonce := (assignIds s.nonce data).2 } := by
      simp only [stepOp, MapEngine.load, MapEngine.clear, hfold]
    rw [hst]
    have h := insertAll_markAll_inv (assignIds s.nonce data).1 [] []
      (assignIds_renderOk data s.nonce) (by simp) (by simp) (by simp)
      (by simp)
    exact ⟨h.1, h.2.1, h.2.2.1, h.2.2.2⟩
  | opAdd f =>
    have hrid := renderId_ensureFeatureId s.nonce f
    have hst : (stepOp s (.opAdd f)).st =
        { markers := keyInsert s.markers (MapEngine.ensureFeatureId s.nonce f).1,
          features := storeSet s.features (MapEngine.ensureFeatureId s.nonce f).1
            (MapEngine.ensureFeatureId s.nonce f).2.1,
          nonce := (MapEngine.ensureFeatureId s.nonce f).2.2 } := by
      simp [stepOp, MapEngine.addFeature, MapEngine.renderFeature,
        adapterAddMarker, hrid]
    rw [hst]
    refine ⟨storeOk_storeSet _ _ _ hok hrid,
      keys_storeSet_nodup _ _ _ hnd,
      keyInsert_nodup _ _ hmnd, ?_⟩
    intro x
    rw [mem_keyInsert, mem_keys_storeSet]
    rcases Classical.em (x = (MapEngine.ensureFeatureId s.nonce f).1) with hx | hx
    · simp [hx]
    · simp [hx, hiff x]
  | opUpdate id patch =>
    rcases hget : storeGet s.features id with _ | f
    · simpa [stepOp, MapEngine.updateFeature, hget] using
        ⟨hok, hnd, hmnd, hiff⟩
    · have hmemkeys : id ∈ s.features.map (·.1) := by
        by_contra hc
        rw [← storeGet_eq_none_iff] at hc
        rw [hget] at hc
        cases hc
      have hf : renderId f = some id := by
        have hmem := storeGet_mem hget
        exact hok (id, f) hmem
      have hf' : renderId { f with props := objMerge f.props patch } =
          some id := by
        rw [renderId_objMerge_no_id f patch hgood]
        exact hf
      have hst : (stepOp s (.opUpdate id patch)).st =
          { markers := keyInsert (adapterRemoveMarker s.markers id).1 id,
            features := s.features.map fun kv =>
              (kv.1, if kv.1 = id then
                { f with props := objMerge f.props patch } else kv.2),
            nonce := s.nonce } := by
        simp [stepOp, MapEngine.updateFeature, hget, MapEngine.renderFeature,
          adapterAddMarker, hf']
      rw [hst]
      refine ⟨storeOk_map_update _ _ _ hok hf', ?_, ?_, ?_⟩
      · rw [keys_map_update]
        exact hnd
      · exact keyInsert_nodup _ _ (adapterRemoveMarker_nodup _ _ hmnd)
      · intro x
        rw [mem_keyInsert, mem_adapterRemoveMarker, keys_map_update]
        constructor
        · rintro (⟨hxm, _⟩ | rfl)
          · exact (hiff x).mp hxm
          · exact hmemkeys
        · intro hxk
          rcases Classical.em (x = id) with hx | hx
          · exact Or.inr hx
          · exact Or.inl ⟨(hiff x).mpr hxk, hx⟩
  | opRemove id =>
    rcases hget : storeGet s.features id with _ | f
    · simpa [stepOp, MapEngine.removeFeature, hget] using
        ⟨hok, hnd, hmnd, hiff⟩
    · have hst : (stepOp s (.opRemove id)).st =
          { markers := (adapterRemoveMarker s.markers id).1,
            features := s.features.filter fun kv => kv.1 ≠ id,
            nonce := s.nonce } := by
        simp [stepOp, MapEngine.removeFeature, hget]
      rw [hst]
      refine ⟨?_, ?_, adapterRemoveMarker_nodup _ _ hmnd, ?_⟩
      · intro kv hkv
        exact hok kv (List.mem_of_mem_filter hkv)
      · exact hnd.sublist (List.Sublist.map _ (List.filter_sublist s.features))
      · intro x
        rw [mem_adapterRemoveMarker, mem_keys_filter_ne]
        rw [hiff x]
  | opShow p => cases hgood
  | opClear =>
    refine ⟨?_, ?_, ?_, ?_⟩ <;> simp [stepOp, MapEngine.clear]

theorem runFrom_inv (ops : List Op) (s : Engine) (hinv : EngineInv s)
    (hgood : ∀ op ∈ ops, goodOp op) :
    EngineInv (ops.foldl (fun t op => (stepOp t op).st) s) := by
  induction ops generalizing s with
  | nil => exact hinv
  | cons op rest ih =>
    exact ih _ (stepOp_preserves_inv s op hinv
        (hgood op (List.mem_cons_self _ _)))
      fun o ho => hgood o (List.mem_cons_of_mem _ ho)

end FoodTracker

namespace FoodTracker

theorem insertAll_keys_nodup (ps st : List (String × Feature))
    (hnd : (st.map (·.1)).Nodup) :
    ((insertAll st ps).map (·.1)).Nodup := by
  induction ps generalizing st with
  | nil => exact hnd
  | cons hd tl ih =>
    obtain ⟨k, v⟩ := hd
    simpa [insertAll] using ih (storeSet st k v) (keys_storeSet_nodup st k v hnd)

theorem stepOp_keys_nodup (s : Engine) (op : Op)
    (hnd : (s.features.map (·.1)).Nodup) :
    ((stepOp s op).st.features.map (·.1)).Nodup := by
  cases op with
  | opLoad data =>
    have hfold := load_fold_spec data
      { markers := [], features := [], nonce := s.nonce }
      ([] : List FeatureEvent) ([] : List ACall)
    have hst : (stepOp s (.opLoad data)).st.features =
        insertAll [] (assignIds s.nonce data).1 := by
      simp only [stepOp, MapEngine.load, MapEngine.clear, hfold]
    rw [hst]
    exact insertAll_keys_nodup _ [] (by simp)
  | opAdd f =>
    have hst : (stepOp s (.opAdd f)).st.features =
        storeSet s.features (MapEngine.ensureFeatureId s.nonce f).1
          (MapEngine.ensureFeatureId s.nonce f).2.1 := by
      simp [stepOp, MapEngine.addFeature]
    rw [hst]
    exact keys_storeSet_nodup _ _ _ hnd
  | opUpdate id patch =>
    rcases hget : storeGet s.features id with _ | f
    · simpa [stepOp, MapEngine.updateFeature, hget] using hnd
    · have hst : (stepOp s (.opUpdate id patch)).st.features =
          s.features.map fun kv =>
            (kv.1, if kv.1 = id then
              { f with props := objMerge f.props patch } else kv.2) := by
        simp [stepOp, MapEngine.updateFeature, hget]
      rw [hst, keys_map_update]
      exact hnd
  | opRemove id =>
    rcases hget : storeGet s.features id with _ | f
    · simpa [stepOp, MapEngine.removeFeature, hget] using hnd
    · have hst : (stepOp s (.opRemove id)).st.features =
          s.features.filter fun kv => kv.1 ≠ id := by
        simp [stepOp, MapEngine.removeFeature, hget]
      rw [hst]
      exact hnd.sublist (List.Sublist.map _ (List.filter_sublist s.features))
  | opShow p => simpa [stepOp, MapEngine.showFeatures] using hnd
  | opClear => simp [stepOp, MapEngine.clear]

theorem runFrom_keys_nodup (ops : List Op) (s : Engine)
    (hnd : (s.features.map (·.1)).Nodup) :
    (((ops.foldl (fun t op => (stepOp t op).st) s).features).map (·.1)).Nodup := by
  induction ops generalizing s with
  | nil => exact hnd
  | cons op rest ih => exact ih _ (stepOp_keys_nodup s op hnd)

/-- C1 (amended): after any sequence of public operations the Feature Store
holds exactly one entry per identifier.  The marker-iff-shown half holds in
the form the code actually maintains: for histories without `showFeatures`
and whose update patches do not rebind the `id` property, the adapter holds
a marker for an identifier iff that identifier is in the store, and a
trailing `showFeatures` call renders exactly the stored features satisfying
the predicate.  (As stated, the claim fails, because
`addFeature`/`updateFeature` render their feature even while a narrowing
filter is in effect — see the counterexample — and an update patch carrying
an `id` key re-registers the marker under the new id.) -/
theorem store_unique_and_markers_match_store (ops : List Op) :
    (((runOps ops).features.map (·.1)).Nodup) ∧
    ((∀ op ∈ ops, goodOp op) →
      (∀ id, id ∈ (runOps ops).markers ↔
        id ∈ (runOps ops).features.map (·.1)) ∧
      ∀ p, (MapEngine.showFeatures (runOps ops) p).st.markers =
        ((runOps ops).features.filter fun kv => p kv.2).map (·.1)) := by
  constructor
  · exact runFrom_keys_nodup ops initEngine (by simp [initEngine])
  · intro hgood
    have hinv : EngineInv (runOps ops) :=
      runFrom_inv ops initEngine
        ⟨by simp [initEngine], by simp [initEngine], by simp [initEngine],
         by simp [initEngine]⟩ hgood
    refine ⟨hinv.2.2.2, ?_⟩
    intro p
    have hfold := show_fold_spec
      ((runOps ops).features.filter fun kv => p kv.2) [] []
      (fun kv hkv => hinv.1 kv (List.mem_of_mem_filter hkv))
      (fun kv _ => by simp)
      (hinv.2.1.sublist (List.Sublist.map _ (List.filter_sublist _)))
    simp [MapEngine.showFeatures, hfold]

/-- Witness for the amended C1 at a concrete one-add history. -/
theorem store_unique_and_markers_match_store_witness :
    ((runOps [Op.opAdd ⟨some "a", ⟨"Point", []⟩, []⟩]).features.map
      (·.1)).Nodup ∧
    ("a" ∈ (runOps [Op.opAdd ⟨some "a", ⟨"Point", []⟩, []⟩]).markers ↔
      "a" ∈ (runOps [Op.opAdd ⟨some "a", ⟨"Point", []⟩, []⟩]).features.map
        (·.1)) :=
  ⟨(store_unique_and_markers_match_store
      [Op.opAdd ⟨some "a", ⟨"Point", []⟩, []⟩]).1,
   ((store_unique_and_markers_match_store
      [Op.opAdd ⟨some "a", ⟨"Point", []⟩, []⟩]).2 (fun op hop => by
        rw [List.mem_singleton] at hop
        subst hop
        exact trivial)).1 "a"⟩

end FoodTracker

namespace FoodTracker

/-! ### Claim C2: export aliasing, under reference semantics

`export()` returns `Array.from(this.features.values())` — the same
`GeoJSONFeature` objects the store holds, each carrying a reference to the
same mutable `properties` object.  To observe aliasing, this fragment of the
engine is re-embedded with explicit references: property objects live in a
heap and a feature holds the index of its properties object. -/

/-- A feature as a JS object reference: `propsRef` indexes the heap slot of
its (shared, mutable) `properties` object. -/
structure RFeature where
  rid : String
  propsRef : Nat
deriving DecidableEq, Repr

/-- The engine's store together with the heap of property objects. -/
structure RState where
  heap : List Props
  features : List (String × RFeature)
deriving DecidableEq, Repr

/-- Dereference a properties object. -/
def heapRead (h : List Props) (r : Nat) : Props := h.getD r []

/-- `obj.k = v` on the heap object at `r`: an in-place mutation visible
through every alias of that object. -/
def heapWrite (h : List Props) (r : Nat) (k : String) (v : Val) :
    List Props :=
  h.set r (setProp (h.getD r []) k v)

/-- `MapEngine.export` (lines 146-151) under reference semantics:
`Array.from(this.features.values())` hands back the very feature objects of
the store — same `propsRef`s, no copy. -/
def rExport (s : RState) : List RFeature := s.features.map (·.2)

/-- A caller mutating `feature.properties.k = v` in place on a feature it
received from `export()`. -/
def mutateProps (s : RState) (f : RFeature) (k : String) (v : Val) :
    RState :=
  { s with heap := heapWrite s.heap f.propsRef k v }

/-- The engine's stored features as later observed through
`getAllFeatures()` or another `export()`: id with dereferenced
properties. -/
def rObserved (s : RState) : List (String × Props) :=
  s.features.map fun kv => (kv.1, heapRead s.heap kv.2.propsRef)

/-- A one-feature engine state: feature `a`, properties `{name: "Cafe"}` in
heap slot 0. -/
def rState0 : RState :=
  { heap := [[("name", .vStr "Cafe")]],
    features := [("a", { rid := "a", propsRef := 0 })] }

/-- C2 fails on the code: `export()` aliases the live store.  The collection
`export()` returns from `rState0` is exactly the stored feature object, and
mutating its properties in place afterwards changes what the engine's store
observes — `{name: "Cafe"}` becomes `{name: "X"}` — where the claim (and
§4.2 of the spec, "must not leak mutable internal references") requires the
stored features to stay unchanged. -/
theorem export_aliases_live_store :
    rExport rState0 = [{ rid := "a", propsRef := 0 }] ∧
    rObserved rState0 = [("a", [("name", .vStr "Cafe")])] ∧
    rObserved (mutateProps rState0 { rid := "a", propsRef := 0 }
        "name" (.vStr "X")) =
      [("a", [("name", .vStr "X")])] ∧
    rObserved (mutateProps rState0 { rid := "a", propsRef := 0 }
        "name" (.vStr "X")) ≠ rObserved rState0 := by
  refine ⟨rfl, rfl, rfl, ?_⟩
  decide

end FoodTracker
